import Mathlib

/-!
Verification of the nand2tetris toolchain (Rust sources): a shallow embedding
of the Hack assembler `src/nand2tetris-asm/src/main.rs`, the prototype
assembler `src/src/main.rs`, and the VM translator
`src/nand2tetris-vm/src/main.rs`, together with proofs about the embedded
definitions.

Strings are modelled as `List Char` (`Str`), so that every operation is
structurally recursive and kernel-evaluable.  Rust `HashMap<String, u16>` is
modelled as an association list with newest binding first: the source only
uses `insert` (overwrite), `get` and `contains_key`, never iteration order,
so the association list with shadowing is an exact model.  Numeric types
(`u16`, `i32` counters) are modelled as `Nat`; the source counters only grow
by 1 per line processed, so overflow behaviour is out of scope.
-/

namespace N2T

/-- Strings as character lists, so all operations reduce in the kernel. -/
abbrev Str := List Char

/-- Coerce a string literal to its character list. -/
def lit (s : String) : Str := s.data

/-- Symbol table: `HashMap<String, u16>` as an association list, newest
binding first (insert shadows earlier bindings, like `HashMap::insert`). -/
abbrev Table := List (Str × Nat)

/-- `HashMap::insert` (overwrite = shadow). -/
def Table.insert (t : Table) (k : Str) (v : Nat) : Table := (k, v) :: t

/-- `HashMap::get`: first (= most recent) binding wins. -/
def Table.lookup : Table → Str → Option Nat
  | [], _ => none
  | (k, v) :: t, s => if k = s then some v else Table.lookup t s

/-- `HashMap::contains_key`. -/
def Table.containsKey (t : Table) (s : Str) : Bool := (Table.lookup t s).isSome

/-- Model of Rust `str::parse::<u16>` (`main.rs` line 116/138): an optional
leading `+`, then one or more ASCII digits, value at most `65535`;
anything else (including a leading `-`) is an error (`none`). -/
def parseU16 (s : Str) : Option Nat :=
  let cs := match s with
    | '+' :: rest => rest
    | cs => cs
  if cs.isEmpty then none
  else if cs.all Char.isDigit then
    let n := cs.foldl (fun a c => a * 10 + (c.toNat - 48)) 0
    if n ≤ 65535 then some n else none
  else none

/-- The predefined symbols inserted by `build_symbol_table`
(`src/nand2tetris-asm/src/main.rs` lines 77–100) before pass 1.
Note the source inserts `LCL ↦ 2` and never inserts `THAT`. -/
def predefinedTable : Table :=
  Table.insert (Table.insert (Table.insert (Table.insert (Table.insert
    (Table.insert (Table.insert (Table.insert (Table.insert (Table.insert
    (Table.insert (Table.insert (Table.insert (Table.insert (Table.insert
    (Table.insert (Table.insert (Table.insert (Table.insert (Table.insert
    (Table.insert (Table.insert [] (lit "R0") 0) (lit "R1") 1) (lit "R2") 2)
    (lit "R3") 3) (lit "R4") 4) (lit "R5") 5) (lit "R6") 6) (lit "R7") 7)
    (lit "R8") 8) (lit "R9") 9) (lit "R10") 10) (lit "R11") 11)
    (lit "R12") 12) (lit "R13") 13) (lit "R14") 14) (lit "R15") 15)
    (lit "SP") 0) (lit "LCL") 2) (lit "ARG") 3) (lit "THIS") 4)
    (lit "SCREEN") 16384) (lit "KBD") 24576

/-- `line.starts_with(c)`. -/
def startsWithC (c : Char) : Str → Bool
  | [] => false
  | x :: _ => x = c

/-- `line.ends_with(c)`. -/
def endsWithC (c : Char) : Str → Bool
  | [] => false
  | [x] => x = c
  | _ :: x :: rest => endsWithC c (x :: rest)

/-- A label declaration line `(name)`: `line.starts_with('(') && line.ends_with(')')`. -/
def isLabelLine (line : Str) : Bool := startsWithC '(' line && endsWithC ')' line

/-- `&line[1..line.len() - 1]`, the name inside a label declaration. -/
def labelName (line : Str) : Str := line.tail.dropLast

/-- Pass 1 of `build_symbol_table` (lines 102–111): walk the lines keeping a
counter that starts at 0 and is bumped once per non-label line; each label
declaration inserts its name at the current counter value. -/
def pass1 (tbl : Table) (counter : Nat) : List Str → Table
  | [] => tbl
  | line :: rest =>
    if isLabelLine line then
      pass1 (Table.insert tbl (labelName line) counter) counter rest
    else
      pass1 tbl (counter + 1) rest

/-- An address instruction whose operand fails to parse as `u16`:
`line.starts_with('@') && line[1..].parse::<u16>().is_err()`. -/
def isVarLine (line : Str) : Bool := startsWithC '@' line && (parseU16 line.tail).isNone

/-- Pass 2 of `build_symbol_table` (lines 113–123): walk the lines again;
every `@symbol` whose operand is not numeric and not yet a key is inserted at
the current counter value (starting from 16), bumping the counter. -/
def pass2 (tbl : Table) (counter : Nat) : List Str → Table
  | [] => tbl
  | line :: rest =>
    if isVarLine line then
      if Table.containsKey tbl line.tail then pass2 tbl counter rest
      else pass2 (Table.insert tbl line.tail counter) (counter + 1) rest
    else pass2 tbl counter rest

/-- `build_symbol_table` (lines 73–126): predefined symbols, then pass 1
(labels, counter from 0), then pass 2 (variables, counter from 16). -/
def build_symbol_table (code : List Str) : Table :=
  pass2 (pass1 predefinedTable 0 code) 16 code

/-- `comp_table` (lines 185–219 of `src/nand2tetris-asm/src/main.rs`, and
identically lines 124–158 of `src/src/main.rs`): the fixed 28-entry
computation lookup; an unmatched token is a hard error (`None` here models
the `anyhow::bail!`). -/
def comp_table (comp : Str) : Option Str :=
  if comp = lit "0" then some (lit "0101010")
  else if comp = lit "1" then some (lit "0111111")
  else if comp = lit "-1" then some (lit "0111010")
  else if comp = lit "D" then some (lit "0001100")
  else if comp = lit "A" then some (lit "0110000")
  else if comp = lit "!D" then some (lit "0001101")
  else if comp = lit "!A" then some (lit "0110001")
  else if comp = lit "-D" then some (lit "0001111")
  else if comp = lit "-A" then some (lit "0110011")
  else if comp = lit "D+1" then some (lit "0011111")
  else if comp = lit "A+1" then some (lit "0110111")
  else if comp = lit "D-1" then some (lit "0001110")
  else if comp = lit "A-1" then some (lit "0110010")
  else if comp = lit "D+A" then some (lit "0000010")
  else if comp = lit "D-A" then some (lit "0010011")
  else if comp = lit "A-D" then some (lit "0000111")
  else if comp = lit "D&A" then some (lit "0000000")
  else if comp = lit "D|A" then some (lit "0010101")
  else if comp = lit "M" then some (lit "1110000")
  else if comp = lit "!M" then some (lit "1110001")
  else if comp = lit "-M" then some (lit "1110011")
  else if comp = lit "M+1" then some (lit "1110111")
  else if comp = lit "M-1" then some (lit "1110010")
  else if comp = lit "D+M" then some (lit "1000010")
  else if comp = lit "D-M" then some (lit "1010011")
  else if comp = lit "M-D" then some (lit "1000111")
  else if comp = lit "D&M" then some (lit "1000000")
  else if comp = lit "D|M" then some (lit "1010101")
  else none

/-- `jump_table` (lines 221–232): fixed 7-entry table, unknown mnemonics
silently default to `000`. -/
def jump_table (jump : Str) : Str :=
  if jump = lit "JGT" then lit "001"
  else if jump = lit "JEQ" then lit "010"
  else if jump = lit "JGE" then lit "011"
  else if jump = lit "JLT" then lit "100"
  else if jump = lit "JNE" then lit "101"
  else if jump = lit "JLE" then lit "110"
  else if jump = lit "JMP" then lit "111"
  else lit "000"

/-- The destination bits (lines 162–168): three containment flags for
`A`, `D`, `M` on the destination token. -/
def destBits (d : Str) : Str :=
  (if d.contains 'A' then lit "1" else lit "0")
    ++ (if d.contains 'D' then lit "1" else lit "0")
    ++ (if d.contains 'M' then lit "1" else lit "0")

/-- `format!("{:016b}\n", val)` for a `u16` value: 16 binary digits,
most significant first, followed by a newline. -/
def toBinary16 (n : Nat) : Str :=
  ((List.range 16).map (fun i => if n / 2 ^ (15 - i) % 2 = 1 then '1' else '0')) ++ ['\n']

/-- Rust `str::split(c)` (empty pieces kept, `"".split(c)` is `[""]`). -/
def splitOnChar (c : Char) : Str → List Str
  | [] => [[]]
  | x :: xs =>
    match splitOnChar c xs with
    | [] => [[x]]
    | p :: ps => if x = c then [] :: p :: ps else (x :: p) :: ps

/-- The errors `assemble` can return: the `undefined symbol` context of the
failed table lookup (line 145) and the `invalid comp pattern` bail of
`comp_table` (line 217). -/
inductive AsmErr where
  | undefinedSymbol (s : Str)
  | invalidComp (s : Str)
deriving DecidableEq, Repr

/-- `assemble` of `src/nand2tetris-asm/src/main.rs` (lines 128–182): skip
label lines; `@`-lines emit the 16-bit value of the operand (numeric, or
resolved through the symbol table, failing with `undefined symbol`);
other lines are compute instructions split on `;` (jump) then `=`
(dest/comp), encoded as `111` ++ comp ++ dest ++ jump. -/
def assemble : List Str → Table → Except AsmErr (List Str)
  | [], _ => .ok []
  | line :: rest, tbl =>
    if isLabelLine line then assemble rest tbl
    else if startsWithC '@' line then
      match parseU16 line.tail with
      | some num => (assemble rest tbl).map (fun bs => toBinary16 num :: bs)
      | none =>
        match Table.lookup tbl line.tail with
        | some v => (assemble rest tbl).map (fun bs => toBinary16 v :: bs)
        | none => .error (.undefinedSymbol line.tail)
    else
      let parts := splitOnChar ';' line
      let jump := if parts.length > 1 then jump_table (parts.getD 1 []) else lit "000"
      let dcParts := splitOnChar '=' (parts.headD [])
      let compTok := if dcParts.length > 1 then dcParts.getD 1 [] else dcParts.headD []
      match comp_table compTok with
      | none => .error (.invalidComp compTok)
      | some comp =>
        let dest := if dcParts.length > 1 then destBits (dcParts.headD []) else lit "000"
        (assemble rest tbl).map
          (fun bs => (lit "111" ++ comp ++ dest ++ jump ++ ['\n']) :: bs)

/-- The outcomes of the prototype assembler `src/src/main.rs`:
`invalid comp pattern` (bail, line 156) and the `todo!()` panic for symbolic
operands (line 84), modelled as an error value. -/
inductive ProtoErr where
  | invalidComp (s : Str)
  | todoSymbol
deriving DecidableEq, Repr

/-- `assemble` of the prototype `src/src/main.rs` (lines 68–121),
transliterated with its quirks intact: the label-skip condition is
`starts_with('(') && starts_with(')')` (never true), a symbolic `@` operand
hits `todo!()`, and **both** branches of the dest/comp split pass
`dc_parts[0]` to `comp_table` (line 108). -/
def protoAssemble : List Str → Except ProtoErr (List Str)
  | [] => .ok []
  | line :: rest =>
    if startsWithC '(' line && startsWithC ')' line then protoAssemble rest
    else if startsWithC '@' line then
      match parseU16 line.tail with
      | some num => (protoAssemble rest).map (fun bs => toBinary16 num :: bs)
      | none => .error .todoSymbol
    else
      let parts := splitOnChar ';' line
      let jump := if parts.length > 1 then jump_table (parts.getD 1 []) else lit "000"
      let dcParts := splitOnChar '=' (parts.headD [])
      match comp_table (dcParts.headD []) with
      | none => .error (.invalidComp (dcParts.headD []))
      | some comp =>
        let dest := if dcParts.length > 1 then destBits (dcParts.headD []) else lit "000"
        (protoAssemble rest).map
          (fun bs => (lit "111" ++ comp ++ dest ++ jump ++ ['\n']) :: bs)

/-- The 28 computation mnemonics recognized by `comp_table`, in source
order (18 `a = 0` patterns, then 10 `a = 1` patterns). -/
def compMnemonics : List Str :=
  [lit "0", lit "1", lit "-1", lit "D", lit "A", lit "!D", lit "!A",
   lit "-D", lit "-A", lit "D+1", lit "A+1", lit "D-1", lit "A-1",
   lit "D+A", lit "D-A", lit "A-D", lit "D&A", lit "D|A",
   lit "M", lit "!M", lit "-M", lit "M+1", lit "M-1",
   lit "D+M", lit "D-M", lit "M-D", lit "D&M", lit "D|M"]

/-- C9: the computation lookup table is injective over its 28 recognized
mnemonics: there are 28 of them, each maps to a 7-bit (binary-digit) code,
and no two of the (pairwise distinct) mnemonics map to the same code. -/
theorem comp_table_injective_on_mnemonics :
    compMnemonics.length = 28 ∧
    (compMnemonics.map comp_table).Nodup ∧
    (compMnemonics.all (fun m =>
      match comp_table m with
      | some c => c.length = 7 && c.all (fun ch => ch = '0' || ch = '1')
      | none => false)) = true := by
  decide

/-- C4 (code bug in the prototype): on the compute line `M=D`, the prototype
assembler `src/src/main.rs` looks up the token **left** of `=` in
`comp_table` (producing comp bits `1110000`, the code for `M`), while the
finished assembler `src/nand2tetris-asm/src/main.rs` looks up the token
right of `=` (producing comp bits `0001100`, the code for `D`, i.e. the
word `1110001100001000` required by the spec). -/
theorem proto_comp_lookup_divergence :
    protoAssemble [lit "M=D"] = .ok [lit "1111110000001000" ++ ['\n']] ∧
    assemble [lit "M=D"] (build_symbol_table [lit "M=D"]) =
      .ok [lit "1110001100001000" ++ ['\n']] := by
  constructor <;> rfl

/-! ### Decimal rendering and its injectivity

The VM translator builds label names with `format!("TRUE_{}", counter)`;
`natChars` models the decimal rendering of the (non-negative) counter via
core `Nat.toDigits`, and we prove it injective. -/

/-- `format!("{}", n)` for a non-negative integer: decimal digits. -/
def natChars (n : Nat) : Str := Nat.toDigits 10 n

/-- Reference decimal digits, most significant first, by structural
division. -/
def decDigits (n : Nat) : Str :=
  if n < 10 then [Nat.digitChar n]
  else decDigits (n / 10) ++ [Nat.digitChar (n % 10)]
decreasing_by exact Nat.div_lt_self (by omega) (by omega)

lemma toDigitsCore_eq_decDigits (fuel : Nat) :
    ∀ (n : Nat) (ds : Str), n < fuel →
      Nat.toDigitsCore 10 fuel n ds = decDigits n ++ ds := by
  induction fuel with
  | zero => intro n ds h; omega
  | succ fuel ih =>
    intro n ds h
    by_cases hz : n / 10 = 0
    · have hn : n < 10 := by omega
      rw [decDigits]
      simp [Nat.toDigitsCore, hz, hn, Nat.mod_eq_of_lt hn]
    · have h1 : n / 10 < n := Nat.div_lt_self (by omega) (by omega)
      have h2 : n / 10 < fuel := by omega
      rw [decDigits]
      have hn : ¬ n < 10 := by omega
      simp only [Nat.toDigitsCore, hz, if_false, hn]
      rw [ih (n / 10) (Nat.digitChar (n % 10) :: ds) h2]
      simp

lemma natChars_eq_decDigits (n : Nat) : natChars n = decDigits n := by
  have h := toDigitsCore_eq_decDigits (n + 1) n [] (by omega)
  simpa [natChars, Nat.toDigits] using h

/-- Reads decimal digit characters back to the number they denote. -/
def digitsVal (cs : Str) : Nat := cs.foldl (fun a c => 10 * a + (c.toNat - 48)) 0

lemma digitsVal_append_one (xs : Str) (c : Char) :
    digitsVal (xs ++ [c]) = 10 * digitsVal xs + (c.toNat - 48) := by
  simp [digitsVal, List.foldl_append]

lemma digitChar_toNat (n : Nat) (h : n < 10) : (Nat.digitChar n).toNat = 48 + n := by
  have hd : ∀ m, m < 10 → (Nat.digitChar m).toNat = 48 + m := by decide
  exact hd n h

lemma digitsVal_decDigits (n : Nat) : digitsVal (decDigits n) = n := by
  induction n using Nat.strong_induction_on with
  | _ n ih =>
    by_cases h : n < 10
    · rw [decDigits, if_pos h]
      simp [digitsVal, digitChar_toNat n h]
    · rw [decDigits, if_neg h]
      rw [digitsVal_append_one]
      rw [ih (n / 10) (Nat.div_lt_self (by omega) (by omega))]
      rw [digitChar_toNat (n % 10) (Nat.mod_lt n (by omega))]
      omega

lemma natChars_injective {m n : Nat} (h : natChars m = natChars n) : m = n := by
  rw [natChars_eq_decDigits, natChars_eq_decDigits] at h
  have := congrArg digitsVal h
  rwa [digitsVal_decDigits, digitsVal_decDigits] at this

/-! ### C2: pass-1 label addressing -/

lemma lookup_insert_self (t : Table) (k : Str) (v : Nat) :
    Table.lookup (Table.insert t k v) k = some v := by
  simp [Table.insert, Table.lookup]

lemma lookup_insert_of_ne (t : Table) (k : Str) (v : Nat) (s : Str) (h : k ≠ s) :
    Table.lookup (Table.insert t k v) s = Table.lookup t s := by
  simp [Table.insert, Table.lookup, h]

lemma pass1_append (xs : List Str) :
    ∀ (tbl : Table) (c : Nat) (ys : List Str),
      pass1 tbl c (xs ++ ys) =
        pass1 (pass1 tbl c xs) (c + xs.countP (fun l => !isLabelLine l)) ys := by
  induction xs with
  | nil => intro tbl c ys; simp [pass1]
  | cons l ls ih =>
    intro tbl c ys
    by_cases hl : isLabelLine l
    · simp [pass1, hl, ih, List.countP_cons]
    · have hc : c + (l :: ls).countP (fun l => !isLabelLine l) =
          (c + 1) + ls.countP (fun l => !isLabelLine l) := by
        simp [List.countP_cons, hl]; omega
      simp only [List.cons_append, pass1, hl, if_false, Bool.false_eq_true, List.append_eq]
      rw [hc, ih]

/-- C2: pass 1 of `build_symbol_table` binds each label declaration `(name)`
to the number of preceding lines that are not label declarations: the address
counter starts at 0, is bumped exactly once per non-label line, and the label
is inserted at the counter value before any increment, i.e. after processing
the prefix ending at the declaration, `name` is bound to the count of
non-label lines strictly before it.  (Re-declaring a label later overwrites
this binding, which the source permits by `HashMap::insert`.) -/
theorem pass1_label_addresses (tbl : Table) (code : List Str) (i : Nat)
    (hi : i < code.length) (hl : isLabelLine (code.get ⟨i, hi⟩) = true) :
    Table.lookup (pass1 tbl 0 (code.take (i + 1))) (labelName (code.get ⟨i, hi⟩)) =
      some ((code.take i).countP (fun l => !isLabelLine l)) := by
  have htake : code.take (i + 1) = code.take i ++ [code.get ⟨i, hi⟩] := by
    rw [List.take_succ, List.getElem?_eq_getElem hi]
    rfl
  simp only [List.get_eq_getElem] at hl ⊢
  rw [htake, pass1_append]
  simp [pass1, hl, lookup_insert_self]

/-- Witness for C2 on the concrete program `@0 / (L)`: the label `L` is bound
to address 1, the count of the single preceding non-label line. -/
theorem pass1_label_addresses_witness :
    Table.lookup (pass1 predefinedTable 0 (List.take 2 [lit "@0", lit "(L)"]))
      (labelName (List.get [lit "@0", lit "(L)"] ⟨1, by decide⟩)) = some 1 := by
  have h := pass1_label_addresses predefinedTable [lit "@0", lit "(L)"] 1 (by decide) (by decide)
  exact h.trans (by decide)

/-! ### C8, C3, C10: pass-2 variable allocation and symbol resolution -/

/-- The operands pass 2 newly inserts, in first-encounter order: walking the
lines, an `@symbol` whose operand is non-numeric and not yet a key of the
table is recorded once (the inserted value is irrelevant for this
bookkeeping; only the key set matters). -/
def newVars (tbl : Table) : List Str → List Str
  | [] => []
  | line :: rest =>
    if isVarLine line && !(Table.containsKey tbl line.tail) then
      line.tail :: newVars (Table.insert tbl line.tail 0) rest
    else newVars tbl rest

lemma containsKey_insert (t : Table) (k : Str) (v : Nat) (s : Str) :
    Table.containsKey (Table.insert t k v) s = (k = s || Table.containsKey t s) := by
  by_cases h : k = s
  · simp [Table.containsKey, Table.insert, Table.lookup, h]
  · simp [Table.containsKey, Table.insert, Table.lookup, h]

lemma newVars_congr (code : List Str) :
    ∀ t₁ t₂ : Table, (∀ s, Table.containsKey t₁ s = Table.containsKey t₂ s) →
      newVars t₁ code = newVars t₂ code := by
  induction code with
  | nil => intro t₁ t₂ _; rfl
  | cons line rest ih =>
    intro t₁ t₂ h
    simp only [newVars, h line.tail]
    by_cases hc : isVarLine line && !(Table.containsKey t₂ line.tail)
    · simp only [hc, if_true]
      have : ∀ s, Table.containsKey (Table.insert t₁ line.tail 0) s =
          Table.containsKey (Table.insert t₂ line.tail 0) s := by
        intro s; rw [containsKey_insert, containsKey_insert, h s]
      rw [ih _ _ this]
    · simp only [hc, if_false]
      exact ih _ _ h

lemma newVars_not_contains (code : List Str) :
    ∀ (tbl : Table) (s : Str), s ∈ newVars tbl code →
      Table.containsKey tbl s = false := by
  induction code with
  | nil => intro tbl s h; simp [newVars] at h
  | cons line rest ih =>
    intro tbl s h
    simp only [newVars] at h
    by_cases hc : isVarLine line && !(Table.containsKey tbl line.tail)
    · rw [if_pos hc] at h
      rcases List.mem_cons.mp h with heq | hmem
      · subst heq
        simpa using (Bool.and_elim_right hc)
      · have h2 := ih _ _ hmem
        rw [containsKey_insert] at h2
        exact (Bool.or_eq_false_iff.mp h2).2
    · rw [if_neg hc] at h
      exact ih _ _ h

lemma pass2_lookup (code : List Str) :
    ∀ (tbl : Table) (c : Nat),
      (∀ s, s ∉ newVars tbl code →
        Table.lookup (pass2 tbl c code) s = Table.lookup tbl s) ∧
      (∀ i (h : i < (newVars tbl code).length),
        Table.lookup (pass2 tbl c code) ((newVars tbl code).get ⟨i, h⟩) =
          some (c + i)) := by
  induction code with
  | nil =>
    intro tbl c
    exact ⟨fun s _ => rfl, fun i h => by simp [newVars] at h⟩
  | cons line rest ih =>
    intro tbl c
    by_cases hv : isVarLine line = true
    · by_cases hk : Table.containsKey tbl line.tail = true
      · have hstep : pass2 tbl c (line :: rest) = pass2 tbl c rest := by
          simp [pass2, hv, hk]
        have hnv : newVars tbl (line :: rest) = newVars tbl rest := by
          simp [newVars, hv, hk]
        rw [hstep, hnv]
        exact ih tbl c
      · have hstep : pass2 tbl c (line :: rest) =
            pass2 (Table.insert tbl line.tail c) (c + 1) rest := by
          simp [pass2, hv, hk]
        have hnv : newVars tbl (line :: rest) =
            line.tail :: newVars (Table.insert tbl line.tail c) rest := by
          simp only [newVars, hv, Bool.eq_false_iff.mpr hk]
          rw [if_pos (by simp [hk])]
          congr 1
          apply newVars_congr
          intro s; rw [containsKey_insert, containsKey_insert]
        rw [hstep, hnv]
        have ihr := ih (Table.insert tbl line.tail c) (c + 1)
        constructor
        · intro s hs
          rw [List.mem_cons, not_or] at hs
          rw [ihr.1 s hs.2, lookup_insert_of_ne _ _ _ _ (fun h => hs.1 h.symm)]
        · intro i h
          match i with
          | 0 =>
            have hni : line.tail ∉ newVars (Table.insert tbl line.tail c) rest := by
              intro hmem
              have := newVars_not_contains rest _ _ hmem
              rw [containsKey_insert] at this
              simp at this
            simpa using (ihr.1 line.tail hni).trans (lookup_insert_self _ _ _)
          | i + 1 =>
            have h2 : i < (newVars (Table.insert tbl line.tail c) rest).length := by
              simpa using Nat.lt_of_succ_lt_succ (by simpa using h)
            have := ihr.2 i h2
            simpa [Nat.add_assoc, Nat.add_comm 1 i] using this
    · have hstep : pass2 tbl c (line :: rest) = pass2 tbl c rest := by
        simp [pass2, hv]
      have hnv : newVars tbl (line :: rest) = newVars tbl rest := by
        simp [newVars, hv]
      rw [hstep, hnv]
      exact ih tbl c

/-- C8: pass 2 of `build_symbol_table` assigns to each address-instruction
operand that fails to parse as an unsigned integer and is not already a key
(`newVars tbl code`, listed in first-encounter order) the sequential
addresses 16, 17, …: the operand at first-encounter position `i` gets
`16 + i`; every other symbol — in particular every operand already present —
keeps its existing binding. -/
theorem pass2_assigns_sequential_addresses (tbl : Table) (code : List Str) :
    (∀ s, s ∉ newVars tbl code →
      Table.lookup (pass2 tbl 16 code) s = Table.lookup tbl s) ∧
    (∀ i (h : i < (newVars tbl code).length),
      Table.lookup (pass2 tbl 16 code) ((newVars tbl code).get ⟨i, h⟩) =
        some (16 + i)) :=
  pass2_lookup code tbl 16

/-- Witness for C8 on `@x / @y / @x` over the empty table: `x ↦ 16`,
`y ↦ 17` (first-encounter order, `x` only inserted once), and an untouched
symbol (`SP`) keeps its (absent) binding. -/
theorem pass2_assigns_sequential_addresses_witness :
    Table.lookup (pass2 [] 16 [lit "@x", lit "@y", lit "@x"]) (lit "x") = some 16 ∧
    Table.lookup (pass2 [] 16 [lit "@x", lit "@y", lit "@x"]) (lit "y") = some 17 ∧
    Table.lookup (pass2 [] 16 [lit "@x", lit "@y", lit "@x"]) (lit "SP") =
      Table.lookup [] (lit "SP") := by
  have h := pass2_assigns_sequential_addresses [] [lit "@x", lit "@y", lit "@x"]
  exact ⟨(h.2 0 (by decide)).trans (by decide),
         (h.2 1 (by decide)).trans (by decide),
         h.1 (lit "SP") (by decide)⟩

/-- C3 counterexample: the input `["(THAT)", "@THAT"]` contains the address
instruction `@THAT`, yet `build_symbol_table` binds `THAT` to address 0 (the
pass-1 label binding), not to a pass-2 variable address of 16 or greater. -/
theorem that_label_preempts_pass2 :
    lit "@THAT" ∈ [lit "(THAT)", lit "@THAT"] ∧
    Table.lookup (build_symbol_table [lit "(THAT)", lit "@THAT"]) (lit "THAT") =
      some 0 ∧ (0 : Nat) < 16 := by
  refine ⟨by decide, by decide, by decide⟩

lemma endsWithC_getLast (c : Char) :
    ∀ l : Str, endsWithC c l = true → ∃ h : l ≠ [], l.getLast h = c := by
  intro l
  induction l with
  | nil => intro h; simp [endsWithC] at h
  | cons a tl ih =>
    intro h
    match tl with
    | [] =>
      refine ⟨by simp, ?_⟩
      simpa [endsWithC] using h
    | b :: tl₂ =>
      have h2 : endsWithC c (b :: tl₂) = true := h
      obtain ⟨hne, hlast⟩ := ih h2
      refine ⟨by simp, ?_⟩
      rw [List.getLast_cons (by simp)]
      exact hlast

lemma label_line_shape (line : Str) (h : isLabelLine line = true) :
    line = '(' :: labelName line ++ [')'] := by
  unfold isLabelLine at h
  have hs := Bool.and_elim_left h
  have he := Bool.and_elim_right h
  match line with
  | [] => simp [startsWithC] at hs
  | a :: tl =>
    have ha : a = '(' := by simpa [startsWithC] using hs
    obtain ⟨hne, hlast⟩ := endsWithC_getLast ')' (a :: tl) he
    match tl with
    | [] => simp [List.getLast] at hlast; rw [ha] at hlast; exact absurd hlast (by decide)
    | b :: tl₂ =>
      have hlast₂ : (b :: tl₂).getLast (by simp) = ')' := by
        rw [List.getLast_cons (by simp)] at hlast
        exact hlast
      have hshape : b :: tl₂ = (b :: tl₂).dropLast ++ [')'] := by
        conv_lhs => rw [← List.dropLast_append_getLast (l := b :: tl₂) (by simp)]
        rw [hlast₂]
      rw [ha]
      simp only [labelName, List.tail_cons]
      exact congrArg ('(' :: ·) hshape

lemma pass1_lookup_no_label (code : List Str) :
    ∀ (tbl : Table) (c : Nat) (s : Str),
      (∀ line ∈ code, isLabelLine line = true → labelName line ≠ s) →
      Table.lookup (pass1 tbl c code) s = Table.lookup tbl s := by
  induction code with
  | nil => intro tbl c s _; rfl
  | cons line rest ih =>
    intro tbl c s hno
    by_cases hl : isLabelLine line = true
    · have hne : labelName line ≠ s := hno line (by simp) hl
      simp only [pass1, hl, if_true]
      rw [ih _ _ _ (fun l hm => hno l (by simp [hm]))]
      exact lookup_insert_of_ne _ _ _ _ hne
    · simp only [pass1, hl, if_false]
      exact ih _ _ _ (fun l hm => hno l (by simp [hm]))

lemma newVars_mem_of (code : List Str) :
    ∀ (tbl : Table) (line : Str), line ∈ code → isVarLine line = true →
      Table.containsKey tbl line.tail = false → line.tail ∈ newVars tbl code := by
  induction code with
  | nil => intro tbl line h; simp at h
  | cons l rest ih =>
    intro tbl line hmem hv hk
    rcases List.mem_cons.mp hmem with heq | hrest
    · subst heq
      simp [newVars, hv, hk]
    · by_cases hc : isVarLine l && !(Table.containsKey tbl l.tail)
      · simp only [newVars, hc, if_true]
        by_cases heq : line.tail = l.tail
        · rw [heq]; exact List.mem_cons_self _ _
        · refine List.mem_cons_of_mem _ (ih _ _ hrest hv ?_)
          rw [containsKey_insert, hk]
          have hne : ¬ (List.tail l = List.tail line) := fun h => heq h.symm
          simp [hne]
      · simp only [newVars, hc, if_false]
        exact ih _ _ hrest hv hk

/-- C3 (amended): the predefined table built before pass 1 maps `SP ↦ 0`,
`LCL ↦ 2`, `ARG ↦ 3`, `THIS ↦ 4` and has no entry for `THAT`; consequently,
for any input that contains the address instruction `@THAT` **and does not
declare a label `(THAT)`**, the symbol `THAT` is allocated by pass 2 as an
ordinary variable at an address of 16 or greater.  (The label-free proviso is
forced by the counterexample `["(THAT)", "@THAT"]`, where the pass-1 label
binding pre-empts pass 2.) -/
theorem predefined_table_and_that_allocation :
    (Table.lookup predefinedTable (lit "SP") = some 0 ∧
     Table.lookup predefinedTable (lit "LCL") = some 2 ∧
     Table.lookup predefinedTable (lit "ARG") = some 3 ∧
     Table.lookup predefinedTable (lit "THIS") = some 4 ∧
     Table.lookup predefinedTable (lit "THAT") = none) ∧
    ∀ code : List Str, lit "@THAT" ∈ code → lit "(THAT)" ∉ code →
      ∃ v, Table.lookup (build_symbol_table code) (lit "THAT") = some v ∧ 16 ≤ v := by
  refine ⟨⟨by decide, by decide, by decide, by decide, by decide⟩, ?_⟩
  intro code hmem hnolabel
  have htail : (lit "@THAT").tail = lit "THAT" := by decide
  have hp1 : Table.lookup (pass1 predefinedTable 0 code) (lit "THAT") = none := by
    rw [pass1_lookup_no_label]
    · decide
    · intro line hline hl hname
      apply hnolabel
      have hshape := label_line_shape line hl
      rw [hname] at hshape
      have hline₂ : line = lit "(THAT)" := by rw [hshape]; decide
      exact hline₂ ▸ hline
  have hk : Table.containsKey (pass1 predefinedTable 0 code) (lit "THAT") = false := by
    simp [Table.containsKey, hp1]
  have hv : isVarLine (lit "@THAT") = true := by decide
  have hmem₂ : lit "THAT" ∈ newVars (pass1 predefinedTable 0 code) code := by
    have := newVars_mem_of code (pass1 predefinedTable 0 code) (lit "@THAT") hmem hv
      (htail ▸ hk)
    rwa [htail] at this
  obtain ⟨⟨i, hi⟩, hget⟩ := List.mem_iff_get.mp hmem₂
  have := (pass2_lookup code (pass1 predefinedTable 0 code) 16).2 i hi
  rw [hget] at this
  exact ⟨16 + i, this, by omega⟩

/-- Witness for the amended C3 at the concrete input `["@THAT"]`. -/
theorem predefined_table_and_that_allocation_witness :
    ∃ v, Table.lookup (build_symbol_table [lit "@THAT"]) (lit "THAT") = some v ∧
      16 ≤ v :=
  predefined_table_and_that_allocation.2 [lit "@THAT"] (by decide) (by decide)

/-- Does the assembler result carry the `undefined symbol` error? -/
def isUndefinedSymbolErr : Except AsmErr (List Str) → Bool
  | .error (.undefinedSymbol _) => true
  | _ => false

lemma isUndefinedSymbolErr_map (r : Except AsmErr (List Str))
    (f : List Str → List Str) : isUndefinedSymbolErr (r.map f) = isUndefinedSymbolErr r := by
  cases r <;> rfl

lemma pass2_containsKey_mono (code : List Str) :
    ∀ (tbl : Table) (c : Nat) (s : Str), Table.containsKey tbl s = true →
      Table.containsKey (pass2 tbl c code) s = true := by
  induction code with
  | nil => intro tbl c s h; exact h
  | cons line rest ih =>
    intro tbl c s h
    by_cases hv : isVarLine line = true
    · by_cases hk : Table.containsKey tbl line.tail = true
      · rw [show pass2 tbl c (line :: rest) = pass2 tbl c rest by simp [pass2, hv, hk]]
        exact ih _ _ _ h
      · rw [show pass2 tbl c (line :: rest) =
            pass2 (Table.insert tbl line.tail c) (c + 1) rest by simp [pass2, hv, hk]]
        refine ih _ _ _ ?_
        rw [containsKey_insert, h]
        simp
    · rw [show pass2 tbl c (line :: rest) = pass2 tbl c rest by simp [pass2, hv]]
      exact ih _ _ _ h

lemma pass2_covers (code : List Str) :
    ∀ (tbl : Table) (c : Nat) (line : Str), line ∈ code → isVarLine line = true →
      Table.containsKey (pass2 tbl c code) line.tail = true := by
  induction code with
  | nil => intro tbl c line h; simp at h
  | cons l rest ih =>
    intro tbl c line hmem hv
    by_cases hvl : isVarLine l = true
    · by_cases hk : Table.containsKey tbl l.tail = true
      · rw [show pass2 tbl c (l :: rest) = pass2 tbl c rest by simp [pass2, hvl, hk]]
        rcases List.mem_cons.mp hmem with heq | hrest
        · subst heq; exact pass2_containsKey_mono rest _ _ _ hk
        · exact ih _ _ _ hrest hv
      · rw [show pass2 tbl c (l :: rest) =
            pass2 (Table.insert tbl l.tail c) (c + 1) rest by simp [pass2, hvl, hk]]
        rcases List.mem_cons.mp hmem with heq | hrest
        · subst heq
          refine pass2_containsKey_mono rest _ _ _ ?_
          rw [containsKey_insert]; simp
        · exact ih _ _ _ hrest hv
    · rw [show pass2 tbl c (l :: rest) = pass2 tbl c rest by simp [pass2, hvl]]
      rcases List.mem_cons.mp hmem with heq | hrest
      · subst heq; exact absurd hv (by simp [hvl])
      · exact ih _ _ _ hrest hv

lemma assemble_no_undef (code : List Str) :
    ∀ tbl : Table,
      (∀ line ∈ code, isVarLine line = true →
        Table.containsKey tbl line.tail = true) →
      isUndefinedSymbolErr (assemble code tbl) = false := by
  induction code with
  | nil => intro tbl _; rfl
  | cons line rest ih =>
    intro tbl hcov
    have ihr := ih tbl (fun l hm hv => hcov l (by simp [hm]) hv)
    simp only [assemble]
    by_cases hlab : isLabelLine line = true
    · rw [if_pos hlab]; exact ihr
    · rw [if_neg hlab]
      by_cases hat : startsWithC '@' line = true
      · rw [if_pos hat]
        cases hp : parseU16 (List.tail line) with
        | some num => rw [isUndefinedSymbolErr_map]; exact ihr
        | none =>
          have hv : isVarLine line = true := by
            simp [isVarLine, hat, hp]
          have hk := hcov line (by simp) hv
          rw [Table.containsKey, Option.isSome_iff_exists] at hk
          obtain ⟨v, hvv⟩ := hk
          simp only [hvv]
          rw [isUndefinedSymbolErr_map]
          exact ihr
      · rw [if_neg hat]
        split
        · rfl
        · rw [isUndefinedSymbolErr_map]; exact ihr

/-- C10: running `assemble` with the table built from the same preprocessed
lines never yields the `undefined symbol` error: pass 2 inserts every
address-instruction operand that fails the same `u16` parse `assemble` uses,
so the lookup in `assemble` always succeeds and that error branch is
unreachable. -/
theorem assemble_never_undefined_symbol (code : List Str) :
    isUndefinedSymbolErr (assemble code (build_symbol_table code)) = false := by
  apply assemble_no_undef
  intro line hmem hv
  exact pass2_covers code (pass1 predefinedTable 0 code) 16 line hmem hv

/-! ### VM translator (`src/nand2tetris-vm/src/main.rs`) -/

/-- Rust `char::is_ascii_whitespace`: space, tab, newline, form feed,
carriage return. -/
def isWSChar (c : Char) : Bool :=
  c = ' ' || c = '\t' || c = '\n' || c = '\x0c' || c = '\r'

/-- Split on a character predicate, keeping empty pieces. -/
def splitPred (p : Char → Bool) : Str → List Str
  | [] => [[]]
  | x :: xs =>
    match splitPred p xs with
    | [] => [[x]]
    | q :: qs => if p x then [] :: q :: qs else (x :: q) :: qs

/-- `line.split_ascii_whitespace()` (line 69): whitespace-separated tokens,
no empties. -/
def tokens (s : Str) : List Str := (splitPred isWSChar s).filter (fun t => t ≠ [])

/-- Digit characters to the number they denote (most significant first). -/
def digitsToNat (cs : Str) : Nat := cs.foldl (fun a c => a * 10 + (c.toNat - 48)) 0

/-- Model of Rust `str::parse::<i32>` (lines 86/104): optional `+`/`-` sign,
one or more ASCII digits, value within the `i32` range. -/
def parseI32 (s : Str) : Option Int :=
  let sc : Bool × Str := match s with
    | '-' :: rest => (true, rest)
    | '+' :: rest => (false, rest)
    | cs => (false, cs)
  if sc.2.isEmpty then none
  else if sc.2.all Char.isDigit then
    let n := digitsToNat sc.2
    if sc.1 then
      if n ≤ 2147483648 then some (-(n : Int)) else none
    else
      if n ≤ 2147483647 then some (n : Int) else none
  else none

/-- First character class of the label regex `^[a-zA-Z_.:]`. -/
def isLabelStartChar (c : Char) : Bool := c.isAlpha || c = '_' || c = '.' || c = ':'

/-- Continuation character class `[a-zA-Z0-9_.:]`. -/
def isLabelChar (c : Char) : Bool := isLabelStartChar c || c.isDigit

/-- `validate_label` (lines 5–18): non-empty and matching
`^[a-zA-Z_.:][a-zA-Z0-9_.:]*$`. -/
def validLabel (s : Str) : Bool :=
  match s with
  | [] => false
  | c :: rest => isLabelStartChar c && rest.all isLabelChar

/-- `CommandType` (lines 20–28).  The source enum has exactly these six
variants — there is no `Call`, `Function` or `Return`. -/
inductive CommandType where
  | Arithmetic
  | Push
  | Pop
  | Label
  | Goto
  | IfGoto
deriving DecidableEq, Repr

/-- `Command` (lines 30–34). -/
structure Command where
  command_type : CommandType
  arg1 : Option Str
  arg2 : Option Int
deriving DecidableEq, Repr

/-- The error kinds `Parser::parse` and the translate loop can produce
(the `anyhow` bail/context sites of lines 65–152 and 542–570). -/
inductive VMErr where
  | emptyCommand
  | unknownCommand (s : Str)
  | missingArgument
  | invalidInteger (s : Str)
  | invalidLabel (s : Str)
deriving DecidableEq, Repr

/-- The `push`/`pop` arms of `Parser::parse` (lines 79–114), applied to the
tokens after the command name: segment token, then an index token that must
parse as `i32` (no sign restriction in the source). -/
def parsePushPop (ct : CommandType) (rest : List Str) : Except VMErr Command :=
  match rest with
  | [] => .error .missingArgument
  | segment :: rest₂ =>
    match rest₂ with
    | [] => .error .missingArgument
    | idxTok :: _ =>
      match parseI32 idxTok with
      | none => .error (.invalidInteger idxTok)
      | some index => .ok ⟨ct, some segment, some index⟩

/-- The `label`/`goto`/`if-goto` arms of `Parser::parse` (lines 115–150):
one label token, validated. -/
def parseBranch (ct : CommandType) (rest : List Str) : Except VMErr Command :=
  match rest with
  | [] => .error .missingArgument
  | label :: _ =>
    if validLabel label then .ok ⟨ct, some label, none⟩
    else .error (.invalidLabel label)

/-- `Parser::parse` (lines 65–152) on a single preprocessed line: tokenize on
whitespace and dispatch on the first token; any unrecognized first token is
the `Unkonown command` bail. -/
def parseLine (line : Str) : Except VMErr Command :=
  match tokens line with
  | [] => .error .emptyCommand
  | cmdName :: rest =>
    if cmdName = lit "add" ∨ cmdName = lit "sub" ∨ cmdName = lit "neg" ∨
       cmdName = lit "eq" ∨ cmdName = lit "gt" ∨ cmdName = lit "lt" ∨
       cmdName = lit "and" ∨ cmdName = lit "or" ∨ cmdName = lit "not" then
      .ok ⟨.Arithmetic, some cmdName, none⟩
    else if cmdName = lit "push" then parsePushPop .Push rest
    else if cmdName = lit "pop" then parsePushPop .Pop rest
    else if cmdName = lit "label" then parseBranch .Label rest
    else if cmdName = lit "goto" then parseBranch .Goto rest
    else if cmdName = lit "if-goto" then parseBranch .IfGoto rest
    else .error (.unknownCommand cmdName)

/-- `format!("{}", index)` for an `i32`. -/
def intChars : Int → Str
  | .ofNat m => natChars m
  | .negSucc m => '-' :: natChars (m + 1)

/-- `CodeWriter` (lines 160–164): accumulated output lines, translation-unit
name, and the label-uniqueness counter. -/
structure CodeWriter where
  output : List Str
  filename : Str
  label_counter : Nat
deriving DecidableEq, Repr

/-- `CodeWriter::new` (lines 167–173). -/
def CodeWriter.new (filename : Str) : CodeWriter := ⟨[], filename, 0⟩

/-- `CodeWriter::write_arithmetic` (lines 175–292).  The `eq`/`gt`/`lt` arm
mints `TRUE_{counter}`/`END_{counter}` labels and bumps the counter once;
the catch-all arm is `unreachable!()`, modelled as `none`. -/
def writeArithmetic (w : CodeWriter) (cmd : Str) : Option CodeWriter :=
  if cmd = lit "add" then
    some { w with output := w.output ++
      [lit "@SP", lit "M=M-1", lit "A=M", lit "D=M", lit "@SP", lit "M=M-1",
       lit "A=M", lit "M=D+M", lit "@SP", lit "M=M+1"] }
  else if cmd = lit "sub" then
    some { w with output := w.output ++
      [lit "@SP", lit "M=M-1", lit "A=M", lit "D=M", lit "@SP", lit "M=M-1",
       lit "A=M", lit "M=M-D", lit "@SP", lit "M=M+1"] }
  else if cmd = lit "neg" then
    some { w with output := w.output ++
      [lit "@SP", lit "M=M-1", lit "A=M", lit "M=-M", lit "@SP", lit "M=M+1"] }
  else if cmd = lit "eq" ∨ cmd = lit "gt" ∨ cmd = lit "lt" then
    let jump_condition :=
      if cmd = lit "eq" then lit "JEQ"
      else if cmd = lit "gt" then lit "JGT"
      else lit "JLT"
    let true_label := lit "TRUE_" ++ natChars w.label_counter
    let end_label := lit "END_" ++ natChars w.label_counter
    some { w with
      label_counter := w.label_counter + 1,
      output := w.output ++
        [lit "@SP", lit "M=M-1", lit "A=M", lit "D=M", lit "@SP", lit "M=M-1",
         lit "A=M", lit "D=M-D", lit "@" ++ true_label,
         lit "D;" ++ jump_condition, lit "@SP", lit "A=M", lit "M=0",
         lit "@" ++ end_label, lit "0;JMP", lit "(" ++ true_label ++ lit ")",
         lit "@SP", lit "A=M", lit "M=-1", lit "(" ++ end_label ++ lit ")",
         lit "@SP", lit "M=M+1"] }
  else if cmd = lit "and" then
    some { w with output := w.output ++
      [lit "@SP", lit "M=M-1", lit "A=M", lit "D=M", lit "@SP", lit "M=M-1",
       lit "A=M", lit "M=D&M", lit "@SP", lit "M=M+1"] }
  else if cmd = lit "or" then
    some { w with output := w.output ++
      [lit "@SP", lit "M=M-1", lit "A=M", lit "D=M", lit "@SP", lit "M=M-1",
       lit "A=M", lit "M=D|M", lit "@SP", lit "M=M+1"] }
  else if cmd = lit "not" then
    some { w with output := w.output ++
      [lit "@SP", lit "M=M-1", lit "A=M", lit "M=!M", lit "@SP", lit "M=M+1"] }
  else none

/-- `CodeWriter::write_push` (lines 294–400).  The catch-all arm is
`unreachable!()`, modelled as `none` — and it **is** reachable, because
`Parser::parse` accepts any segment token. -/
def writePush (w : CodeWriter) (segment : Str) (index : Int) : Option CodeWriter :=
  if segment = lit "argument" then
    some { w with output := w.output ++
      [lit "@" ++ intChars index, lit "D=A", lit "@ARG", lit "A=D+M",
       lit "D=M", lit "@SP", lit "A=M", lit "M=D", lit "@SP", lit "M=M+1"] }
  else if segment = lit "local" then
    some { w with output := w.output ++
      [lit "@" ++ intChars index, lit "D=A", lit "@LCL", lit "A=D+M",
       lit "D=M", lit "@SP", lit "A=M", lit "M=D", lit "@SP", lit "M=M+1"] }
  else if segment = lit "static" then
    some { w with output := w.output ++
      [lit "@" ++ w.filename ++ lit "." ++ intChars index, lit "D=M",
       lit "@SP", lit "A=M", lit "M=D", lit "@SP", lit "M=M+1"] }
  else if segment = lit "constant" then
    some { w with output := w.output ++
      [lit "@" ++ intChars index, lit "D=A", lit "@SP", lit "A=M",
       lit "M=D", lit "@SP", lit "M=M+1"] }
  else if segment = lit "this" then
    some { w with output := w.output ++
      [lit "@" ++ intChars index, lit "D=A", lit "@THIS", lit "A=D+M",
       lit "D=M", lit "@SP", lit "A=M", lit "M=D", lit "@SP", lit "M=M+1"] }
  else if segment = lit "that" then
    some { w with output := w.output ++
      [lit "@" ++ intChars index, lit "D=A", lit "@THAT", lit "A=D+M",
       lit "D=M", lit "@SP", lit "A=M", lit "M=D", lit "@SP", lit "M=M+1"] }
  else if segment = lit "pointer" then
    let register := if index = 0 then lit "THIS" else lit "THAT"
    some { w with output := w.output ++
      [lit "@" ++ register, lit "D=M", lit "@SP", lit "A=M", lit "M=D",
       lit "@SP", lit "M=M+1"] }
  else if segment = lit "temp" then
    some { w with output := w.output ++
      [lit "@" ++ intChars (5 + index), lit "D=M", lit "@SP", lit "A=M",
       lit "M=D", lit "@SP", lit "M=M+1"] }
  else none

/-- `CodeWriter::write_pop` (lines 402–505).  No `constant` arm exists in the
source; the catch-all is `unreachable!()`, modelled as `none`. -/
def writePop (w : CodeWriter) (segment : Str) (index : Int) : Option CodeWriter :=
  if segment = lit "argument" then
    some { w with output := w.output ++
      [lit "@" ++ intChars index, lit "D=A", lit "@ARG", lit "D=D+M",
       lit "@R13", lit "M=D", lit "@SP", lit "M=M-1", lit "A=M", lit "D=M",
       lit "@R13", lit "A=M", lit "M=D"] }
  else if segment = lit "local" then
    some { w with output := w.output ++
      [lit "@" ++ intChars index, lit "D=A", lit "@LCL", lit "D=D+M",
       lit "@R13", lit "M=D", lit "@SP", lit "M=M-1", lit "A=M", lit "D=M",
       lit "@R13", lit "A=M", lit "M=D"] }
  else if segment = lit "static" then
    some { w with output := w.output ++
      [lit "@SP", lit "M=M-1", lit "A=M", lit "D=M",
       lit "@" ++ w.filename ++ lit "." ++ intChars index, lit "M=D"] }
  else if segment = lit "this" then
    some { w with output := w.output ++
      [lit "@" ++ intChars index, lit "D=A", lit "@THIS", lit "D=D+M",
       lit "@R13", lit "M=D", lit "@SP", lit "M=M-1", lit "A=M", lit "D=M",
       lit "@R13", lit "A=M", lit "M=D"] }
  else if segment = lit "that" then
    some { w with output := w.output ++
      [lit "@" ++ intChars index, lit "D=A", lit "@THAT", lit "D=D+M",
       lit "@R13", lit "M=D", lit "@SP", lit "M=M-1", lit "A=M", lit "D=M",
       lit "@R13", lit "A=M", lit "M=D"] }
  else if segment = lit "pointer" then
    let register := if index = 0 then lit "THIS" else lit "THAT"
    some { w with output := w.output ++
      [lit "@SP", lit "M=M-1", lit "A=M", lit "D=M", lit "@" ++ register,
       lit "M=D"] }
  else if segment = lit "temp" then
    some { w with output := w.output ++
      [lit "@SP", lit "M=M-1", lit "A=M", lit "D=M",
       lit "@" ++ intChars (5 + index), lit "M=D"] }
  else none

/-- `CodeWriter::write_label` (lines 507–509). -/
def writeLabel (w : CodeWriter) (label : Str) : CodeWriter :=
  { w with output := w.output ++ [lit "(" ++ label ++ lit ")"] }

/-- `CodeWriter::write_goto` (lines 511–514). -/
def writeGoto (w : CodeWriter) (label : Str) : CodeWriter :=
  { w with output := w.output ++ [lit "@" ++ label, lit "0;JMP"] }

/-- `CodeWriter::write_if_goto` (lines 516–525). -/
def writeIfGoto (w : CodeWriter) (label : Str) : CodeWriter :=
  { w with output := w.output ++
    [lit "@SP", lit "M=M-1", lit "A=M", lit "D=M", lit "@" ++ label,
     lit "D;JNE"] }

/-- Outcome of processing commands: a new writer state, a translation error
(`Err` surfaced by `?`), or a panic (`unreachable!()` reached). -/
inductive RunRes where
  | ok (w : CodeWriter)
  | fail (e : VMErr)
  | panicked
deriving DecidableEq, Repr

/-- One iteration of the `VMTranslator::translate` loop (lines 539–574):
parse the current line and dispatch to the writer. -/
def execLine (w : CodeWriter) (line : Str) : RunRes :=
  match parseLine line with
  | .error e => .fail e
  | .ok cmd =>
    match cmd.command_type with
    | .Arithmetic =>
      match cmd.arg1 with
      | none => .fail .missingArgument
      | some op =>
        match writeArithmetic w op with
        | some w₂ => .ok w₂
        | none => .panicked
    | .Push =>
      match cmd.arg1, cmd.arg2 with
      | some segment, some index =>
        match writePush w segment index with
        | some w₂ => .ok w₂
        | none => .panicked
      | _, _ => .fail .missingArgument
    | .Pop =>
      match cmd.arg1, cmd.arg2 with
      | some segment, some index =>
        match writePop w segment index with
        | some w₂ => .ok w₂
        | none => .panicked
      | _, _ => .fail .missingArgument
    | .Label =>
      match cmd.arg1 with
      | some label => .ok (writeLabel w label)
      | none => .fail .missingArgument
    | .Goto =>
      match cmd.arg1 with
      | some label => .ok (writeGoto w label)
      | none => .fail .missingArgument
    | .IfGoto =>
      match cmd.arg1 with
      | some label => .ok (writeIfGoto w label)
      | none => .fail .missingArgument

/-- The whole `while parser.has_more_commands()` loop: process the
preprocessed lines in order, stopping at the first error or panic. -/
def runWriter (w : CodeWriter) : List Str → RunRes
  | [] => .ok w
  | line :: rest =>
    match execLine w line with
    | .ok w₂ => runWriter w₂ rest
    | .fail e => .fail e
    | .panicked => .panicked

/-- Everything before the first `//` on a line (`line.split("//").next()`). -/
def beforeComment : Str → Str
  | [] => []
  | '/' :: '/' :: _ => []
  | c :: rest => c :: beforeComment rest

/-- `str::trim` (ASCII whitespace model). -/
def trimStr (s : Str) : Str :=
  ((s.dropWhile isWSChar).reverse.dropWhile isWSChar).reverse

/-- `Parser::new` (lines 42–53): split the input into lines, strip comments,
trim, drop empties. -/
def vmPreprocess (input : Str) : List Str :=
  ((splitOnChar '\n' input).map (fun l => trimStr (beforeComment l))).filter
    (fun l => l ≠ [])

/-- `CodeWriter::get_output` (lines 527–529): `output.join("\n")`. -/
def getOutput (w : CodeWriter) : Str := List.intercalate (lit "\n") w.output

/-- The observable outcome of `VMTranslator::translate` (lines 535–577). -/
inductive TransOut where
  | ok (out : Str)
  | fail (e : VMErr)
  | panicked
deriving DecidableEq, Repr

/-- `VMTranslator::translate` (lines 535–577): preprocess, run the loop from
a fresh `CodeWriter`, and join the output. -/
def translate (input : Str) (filename : Str) : TransOut :=
  match runWriter (CodeWriter.new filename) (vmPreprocess input) with
  | .ok w => .ok (getOutput w)
  | .fail e => .fail e
  | .panicked => .panicked

/-- C1 (code bug): `CommandType` has no `Call`, `Function` or `Return`
variant, and `Parser::parse` rejects well-formed `call`/`function`/`return`
lines with the `Unkonown command` error instead of producing the
corresponding commands the specification describes. -/
theorem parse_rejects_call_function_return :
    parseLine (lit "call Foo 2") = .error (.unknownCommand (lit "call")) ∧
    parseLine (lit "function Foo 2") = .error (.unknownCommand (lit "function")) ∧
    parseLine (lit "return") = .error (.unknownCommand (lit "return")) := by
  refine ⟨rfl, rfl, rfl⟩

/-- C5 counterexample: on `push constant -3` the parser succeeds, returning
a `Push` command carrying the negative index `-3`, instead of failing with
`InvalidInteger` as the claim states. -/
theorem parse_accepts_negative_index :
    parseLine (lit "push constant -3") =
      .ok ⟨CommandType.Push, some (lit "constant"), some (-3)⟩ := by
  rfl

/-- C5 (amended): for every `push`/`pop` line, if the index token parses as
an `i32` — negative values included — the parser succeeds and returns the
`Push`/`Pop` command carrying exactly that index (no negativity check
exists), and the `InvalidInteger` error occurs precisely in the remaining
case: when the token fails to parse as an `i32` at all. -/
theorem parse_push_pop_index (line seg t : Str) :
    (∀ n : Int, parseI32 t = some n →
      (tokens line = [lit "push", seg, t] →
        parseLine line = .ok ⟨CommandType.Push, some seg, some n⟩) ∧
      (tokens line = [lit "pop", seg, t] →
        parseLine line = .ok ⟨CommandType.Pop, some seg, some n⟩)) ∧
    (parseI32 t = none →
      (tokens line = [lit "push", seg, t] →
        parseLine line = .error (.invalidInteger t)) ∧
      (tokens line = [lit "pop", seg, t] →
        parseLine line = .error (.invalidInteger t))) := by
  constructor
  · intro n hp
    constructor
    · intro ht
      simp only [parseLine, ht, lit]
      rw [if_neg (by decide)]
      simp only [reduceIte]
      simp only [parsePushPop, hp]
    · intro ht
      simp only [parseLine, ht, lit]
      rw [if_neg (by decide)]
      simp only [reduceIte]
      rw [if_neg (by decide)]
      simp only [parsePushPop, hp]
  · intro hp
    constructor
    · intro ht
      simp only [parseLine, ht, lit]
      rw [if_neg (by decide)]
      simp only [reduceIte]
      simp only [parsePushPop, hp]
    · intro ht
      simp only [parseLine, ht, lit]
      rw [if_neg (by decide)]
      simp only [reduceIte]
      rw [if_neg (by decide)]
      simp only [parsePushPop, hp]

/-- Witness for the amended C5, exercising both directions: `pop local -7`
succeeds with the negative index, and `push constant 2x` fails with
`InvalidInteger`. -/
theorem parse_push_pop_index_witness :
    parseLine (lit "pop local -7") =
      .ok ⟨CommandType.Pop, some (lit "local"), some (-7)⟩ ∧
    parseLine (lit "push constant 2x") =
      .error (.invalidInteger (lit "2x")) := by
  constructor
  · exact ((parse_push_pop_index (lit "pop local -7") (lit "local")
      (lit "-7")).1 (-7) (by decide)).2 (by decide)
  · exact ((parse_push_pop_index (lit "push constant 2x") (lit "constant")
      (lit "2x")).2 (by decide)).1 (by decide)

/-- C6 (code bug): `push foo 0` passes parsing (the parser does not validate
the segment token), and translation then reaches the `unreachable!()`
catch-all of `write_push` — a panic — instead of failing with an
`UnknownSegment` error result. -/
theorem translate_panics_on_unknown_segment :
    parseLine (lit "push foo 0") =
      .ok ⟨CommandType.Push, some (lit "foo"), some 0⟩ ∧
    translate (lit "push foo 0") (lit "test") = TransOut.panicked := by
  refine ⟨rfl, rfl⟩

/-! ### C7: uniqueness of comparison labels -/

/-- A preprocessed line that parses as a comparison command: its first
whitespace token is `eq`, `gt` or `lt`. -/
def isCompLine (line : Str) : Bool :=
  match tokens line with
  | [] => false
  | c :: _ => c = lit "eq" || c = lit "gt" || c = lit "lt"

/-- The `TRUE_{counter}` label minted by the `i`-th line of a translation
that starts from a fresh `CodeWriter`: the counter equals the number of
comparison lines strictly before `i`. -/
def trueLabelAt (lines : List Str) (i : Nat) : Str :=
  lit "TRUE_" ++ natChars (List.countP isCompLine (lines.take i))

/-- The matching `END_{counter}` label. -/
def endLabelAt (lines : List Str) (i : Nat) : Str :=
  lit "END_" ++ natChars (List.countP isCompLine (lines.take i))

lemma isCompLine_iff (line : Str) (c : Str) (rest : List Str)
    (htok : tokens line = c :: rest) :
    isCompLine line = true ↔ (c = lit "eq" ∨ c = lit "gt" ∨ c = lit "lt") := by
  simp [isCompLine, htok, or_assoc]

lemma writeArithmetic_ok (w : CodeWriter) (op : Str) (w₂ : CodeWriter)
    (h : writeArithmetic w op = some w₂) :
    w₂.filename = w.filename ∧
    w₂.label_counter = w.label_counter +
      (if op = lit "eq" ∨ op = lit "gt" ∨ op = lit "lt" then 1 else 0) ∧
    (∀ x ∈ w.output, x ∈ w₂.output) ∧
    ((op = lit "eq" ∨ op = lit "gt" ∨ op = lit "lt") →
      (lit "(" ++ (lit "TRUE_" ++ natChars w.label_counter) ++ lit ")") ∈ w₂.output ∧
      (lit "(" ++ (lit "END_" ++ natChars w.label_counter) ++ lit ")") ∈ w₂.output) := by
  unfold writeArithmetic at h
  by_cases h1 : op = lit "add"
  · rw [if_pos h1] at h
    obtain rfl := Option.some.inj h
    subst h1
    exact ⟨rfl, by rw [if_neg (by decide)]; rfl, fun x hx => List.mem_append_left _ hx,
      fun hcmp => absurd hcmp (by decide)⟩
  rw [if_neg h1] at h
  by_cases h2 : op = lit "sub"
  · rw [if_pos h2] at h
    obtain rfl := Option.some.inj h
    subst h2
    exact ⟨rfl, by rw [if_neg (by decide)]; rfl, fun x hx => List.mem_append_left _ hx,
      fun hcmp => absurd hcmp (by decide)⟩
  rw [if_neg h2] at h
  by_cases h3 : op = lit "neg"
  · rw [if_pos h3] at h
    obtain rfl := Option.some.inj h
    subst h3
    exact ⟨rfl, by rw [if_neg (by decide)]; rfl, fun x hx => List.mem_append_left _ hx,
      fun hcmp => absurd hcmp (by decide)⟩
  rw [if_neg h3] at h
  by_cases h4 : op = lit "eq" ∨ op = lit "gt" ∨ op = lit "lt"
  · rw [if_pos h4] at h
    obtain rfl := Option.some.inj h
    refine ⟨rfl, by rw [if_pos h4] <;> rfl, fun x hx => List.mem_append_left _ hx,
      fun _ => ⟨List.mem_append_right _ (by simp), List.mem_append_right _ (by simp)⟩⟩
  rw [if_neg h4] at h
  by_cases h5 : op = lit "and"
  · rw [if_pos h5] at h
    obtain rfl := Option.some.inj h
    subst h5
    exact ⟨rfl, by rw [if_neg (by decide)]; rfl, fun x hx => List.mem_append_left _ hx,
      fun hcmp => absurd hcmp (by decide)⟩
  rw [if_neg h5] at h
  by_cases h6 : op = lit "or"
  · rw [if_pos h6] at h
    obtain rfl := Option.some.inj h
    subst h6
    exact ⟨rfl, by rw [if_neg (by decide)]; rfl, fun x hx => List.mem_append_left _ hx,
      fun hcmp => absurd hcmp (by decide)⟩
  rw [if_neg h6] at h
  by_cases h7 : op = lit "not"
  · rw [if_pos h7] at h
    obtain rfl := Option.some.inj h
    subst h7
    exact ⟨rfl, by rw [if_neg (by decide)]; rfl, fun x hx => List.mem_append_left _ hx,
      fun hcmp => absurd hcmp (by decide)⟩
  rw [if_neg h7] at h
  cases h

lemma writePush_ok (w : CodeWriter) (seg : Str) (idx : Int) (w₂ : CodeWriter)
    (h : writePush w seg idx = some w₂) :
    w₂.filename = w.filename ∧ w₂.label_counter = w.label_counter ∧
    (∀ x ∈ w.output, x ∈ w₂.output) := by
  unfold writePush at h
  split_ifs at h <;>
    first
    | (obtain rfl := Option.some.inj h
       exact ⟨rfl, rfl, fun x hx => List.mem_append_left _ hx⟩)
    | simp at h

lemma writePop_ok (w : CodeWriter) (seg : Str) (idx : Int) (w₂ : CodeWriter)
    (h : writePop w seg idx = some w₂) :
    w₂.filename = w.filename ∧ w₂.label_counter = w.label_counter ∧
    (∀ x ∈ w.output, x ∈ w₂.output) := by
  unfold writePop at h
  split_ifs at h <;>
    first
    | (obtain rfl := Option.some.inj h
       exact ⟨rfl, rfl, fun x hx => List.mem_append_left _ hx⟩)
    | simp at h

lemma parsePushPop_ct (ct : CommandType) (rest : List Str) (cmd : Command)
    (h : parsePushPop ct rest = .ok cmd) : cmd.command_type = ct := by
  unfold parsePushPop at h
  split at h
  · cases h
  · split at h
    · cases h
    · split at h
      · cases h
      · obtain rfl := Except.ok.inj h
        rfl

lemma parseBranch_ct (ct : CommandType) (rest : List Str) (cmd : Command)
    (h : parseBranch ct rest = .ok cmd) : cmd.command_type = ct := by
  unfold parseBranch at h
  split at h
  · cases h
  · split at h
    · obtain rfl := Except.ok.inj h
      rfl
    · cases h

/-- Structure of a successful parse: the line has a first token `c`; for an
arithmetic command `c` is the operator (one of the nine mnemonics), and for
the other command types `c` is the corresponding keyword. -/
lemma parseLine_first_token (line : Str) (cmd : Command)
    (h : parseLine line = .ok cmd) :
    ∃ c rest, tokens line = c :: rest ∧
      (cmd.command_type = CommandType.Arithmetic → cmd.arg1 = some c ∧
        (c = lit "add" ∨ c = lit "sub" ∨ c = lit "neg" ∨ c = lit "eq" ∨
         c = lit "gt" ∨ c = lit "lt" ∨ c = lit "and" ∨ c = lit "or" ∨
         c = lit "not")) ∧
      (cmd.command_type = CommandType.Push → c = lit "push") ∧
      (cmd.command_type = CommandType.Pop → c = lit "pop") ∧
      (cmd.command_type = CommandType.Label → c = lit "label") ∧
      (cmd.command_type = CommandType.Goto → c = lit "goto") ∧
      (cmd.command_type = CommandType.IfGoto → c = lit "if-goto") := by
  unfold parseLine at h
  cases htok : tokens line with
  | nil => rw [htok] at h; cases h
  | cons c rest =>
    simp only [htok] at h
    refine ⟨c, rest, rfl, ?_⟩
    split_ifs at h with h1 h2 h3 h4 h5 h6
    · obtain rfl := Except.ok.inj h
      exact ⟨fun _ => ⟨rfl, (by tauto)⟩,
        fun hc => (by cases hc), fun hc => (by cases hc), fun hc => (by cases hc),
        fun hc => (by cases hc), fun hc => (by cases hc)⟩
    · have hct := parsePushPop_ct _ _ _ h
      exact ⟨fun hc => absurd (hct ▸ hc) (by decide),
        fun _ => h2, fun hc => absurd (hct ▸ hc) (by decide),
        fun hc => absurd (hct ▸ hc) (by decide),
        fun hc => absurd (hct ▸ hc) (by decide),
        fun hc => absurd (hct ▸ hc) (by decide)⟩
    · have hct := parsePushPop_ct _ _ _ h
      exact ⟨fun hc => absurd (hct ▸ hc) (by decide),
        fun hc => absurd (hct ▸ hc) (by decide), fun _ => h3,
        fun hc => absurd (hct ▸ hc) (by decide),
        fun hc => absurd (hct ▸ hc) (by decide),
        fun hc => absurd (hct ▸ hc) (by decide)⟩
    · have hct := parseBranch_ct _ _ _ h
      exact ⟨fun hc => absurd (hct ▸ hc) (by decide),
        fun hc => absurd (hct ▸ hc) (by decide),
        fun hc => absurd (hct ▸ hc) (by decide), fun _ => h4,
        fun hc => absurd (hct ▸ hc) (by decide),
        fun hc => absurd (hct ▸ hc) (by decide)⟩
    · have hct := parseBranch_ct _ _ _ h
      exact ⟨fun hc => absurd (hct ▸ hc) (by decide),
        fun hc => absurd (hct ▸ hc) (by decide),
        fun hc => absurd (hct ▸ hc) (by decide),
        fun hc => absurd (hct ▸ hc) (by decide), fun _ => h5,
        fun hc => absurd (hct ▸ hc) (by decide)⟩
    · have hct := parseBranch_ct _ _ _ h
      exact ⟨fun hc => absurd (hct ▸ hc) (by decide),
        fun hc => absurd (hct ▸ hc) (by decide),
        fun hc => absurd (hct ▸ hc) (by decide),
        fun hc => absurd (hct ▸ hc) (by decide),
        fun hc => absurd (hct ▸ hc) (by decide), fun _ => h6⟩

lemma execLine_ok (w : CodeWriter) (line : Str) (w₂ : CodeWriter)
    (h : execLine w line = .ok w₂) :
    w₂.filename = w.filename ∧
    w₂.label_counter = w.label_counter + (if isCompLine line then 1 else 0) ∧
    (∀ x ∈ w.output, x ∈ w₂.output) ∧
    (isCompLine line = true →
      (lit "(" ++ (lit "TRUE_" ++ natChars w.label_counter) ++ lit ")") ∈ w₂.output ∧
      (lit "(" ++ (lit "END_" ++ natChars w.label_counter) ++ lit ")") ∈ w₂.output) := by
  cases hp : parseLine line with
  | error e => rw [execLine, hp] at h; cases h
  | ok cmd =>
    obtain ⟨c, rest, htok, harith, hpush, hpop, hlabel, hgoto, hifgoto⟩ :=
      parseLine_first_token line cmd hp
    have hiff := isCompLine_iff line c rest htok
    obtain ⟨ct, a1, a2⟩ := cmd
    cases ct with
    | Arithmetic =>
      obtain ⟨ha1, hops⟩ := harith rfl
      obtain rfl : a1 = some c := ha1
      simp only [execLine, hp] at h
      cases hw : writeArithmetic w c with
      | none => rw [hw] at h; cases h
      | some w₃ =>
        rw [hw] at h
        injection h with h2
        subst h2
        obtain ⟨hf, hcc, hm, hl⟩ := writeArithmetic_ok w c w₃ hw
        refine ⟨hf, ?_, hm, fun hb => hl (hiff.mp hb)⟩
        rw [hcc]
        by_cases hP : (c = lit "eq" ∨ c = lit "gt" ∨ c = lit "lt")
        · rw [if_pos hP, if_pos (hiff.mpr hP)]
        · rw [if_neg hP, if_neg (fun hb => hP (hiff.mp hb))]
    | Push =>
      have hcl : isCompLine line = false := by
        rw [Bool.eq_false_iff]
        intro hb
        rw [hpush rfl] at hiff
        exact absurd (hiff.mp hb) (by decide)
      cases a1 with
      | none => simp [execLine, hp] at h
      | some seg =>
        cases a2 with
        | none => simp [execLine, hp] at h
        | some idx =>
          simp only [execLine, hp] at h
          cases hw : writePush w seg idx with
          | none => rw [hw] at h; cases h
          | some w₃ =>
            rw [hw] at h
            injection h with h2
            subst h2
            obtain ⟨hf, hcc, hm⟩ := writePush_ok w seg idx w₃ hw
            refine ⟨hf, ?_, hm, ?_⟩
            · rw [hcc, hcl]; rfl
            · intro hb; rw [hcl] at hb; exact absurd hb (by decide)
    | Pop =>
      have hcl : isCompLine line = false := by
        rw [Bool.eq_false_iff]
        intro hb
        rw [hpop rfl] at hiff
        exact absurd (hiff.mp hb) (by decide)
      cases a1 with
      | none => simp [execLine, hp] at h
      | some seg =>
        cases a2 with
        | none => simp [execLine, hp] at h
        | some idx =>
          simp only [execLine, hp] at h
          cases hw : writePop w seg idx with
          | none => rw [hw] at h; cases h
          | some w₃ =>
            rw [hw] at h
            injection h with h2
            subst h2
            obtain ⟨hf, hcc, hm⟩ := writePop_ok w seg idx w₃ hw
            refine ⟨hf, ?_, hm, ?_⟩
            · rw [hcc, hcl]; rfl
            · intro hb; rw [hcl] at hb; exact absurd hb (by decide)
    | Label =>
      have hcl : isCompLine line = false := by
        rw [Bool.eq_false_iff]
        intro hb
        rw [hlabel rfl] at hiff
        exact absurd (hiff.mp hb) (by decide)
      cases a1 with
      | none => simp [execLine, hp] at h
      | some label =>
        simp only [execLine, hp] at h
        injection h with h2
        subst h2
        refine ⟨rfl, ?_, fun x hx => List.mem_append_left _ hx, ?_⟩
        · rw [hcl]; rfl
        · intro hb; rw [hcl] at hb; exact absurd hb (by decide)
    | Goto =>
      have hcl : isCompLine line = false := by
        rw [Bool.eq_false_iff]
        intro hb
        rw [hgoto rfl] at hiff
        exact absurd (hiff.mp hb) (by decide)
      cases a1 with
      | none => simp [execLine, hp] at h
      | some label =>
        simp only [execLine, hp] at h
        injection h with h2
        subst h2
        refine ⟨rfl, ?_, fun x hx => List.mem_append_left _ hx, ?_⟩
        · rw [hcl]; rfl
        · intro hb; rw [hcl] at hb; exact absurd hb (by decide)
    | IfGoto =>
      have hcl : isCompLine line = false := by
        rw [Bool.eq_false_iff]
        intro hb
        rw [hifgoto rfl] at hiff
        exact absurd (hiff.mp hb) (by decide)
      cases a1 with
      | none => simp [execLine, hp] at h
      | some label =>
        simp only [execLine, hp] at h
        injection h with h2
        subst h2
        refine ⟨rfl, ?_, fun x hx => List.mem_append_left _ hx, ?_⟩
        · rw [hcl]; rfl
        · intro hb; rw [hcl] at hb; exact absurd hb (by decide)

lemma runWriter_ok (ls : List Str) :
    ∀ (w w₂ : CodeWriter), runWriter w ls = .ok w₂ →
      w₂.filename = w.filename ∧
      w₂.label_counter = w.label_counter + List.countP isCompLine ls ∧
      (∀ x ∈ w.output, x ∈ w₂.output) ∧
      (∀ i (hi : i < ls.length), isCompLine (ls.get ⟨i, hi⟩) = true →
        (lit "(" ++ (lit "TRUE_" ++
          natChars (w.label_counter + List.countP isCompLine (ls.take i))) ++ lit ")")
            ∈ w₂.output ∧
        (lit "(" ++ (lit "END_" ++
          natChars (w.label_counter + List.countP isCompLine (ls.take i))) ++ lit ")")
            ∈ w₂.output) := by
  induction ls with
  | nil =>
    intro w w₂ h
    injection h with h2
    subst h2
    exact ⟨rfl, by simp, fun x hx => hx, fun i hi => absurd hi (by simp)⟩
  | cons l rest ih =>
    intro w w₂ h
    cases he : execLine w l with
    | fail e => rw [runWriter, he] at h; cases h
    | panicked => rw [runWriter, he] at h; cases h
    | ok w₁ =>
      rw [runWriter, he] at h
      obtain ⟨hf1, hc1, hm1, hl1⟩ := execLine_ok w l w₁ he
      obtain ⟨hf2, hc2, hm2, hl2⟩ := ih w₁ w₂ h
      have hcount : ∀ i : Nat,
          w.label_counter + List.countP isCompLine ((l :: rest).take (i + 1)) =
            w₁.label_counter + List.countP isCompLine (rest.take i) := by
        intro i
        rw [List.take_succ_cons, List.countP_cons, hc1]
        by_cases hcl : isCompLine l = true <;> simp [hcl] <;> omega
      refine ⟨hf2.trans hf1, ?_, fun x hx => hm2 x (hm1 x hx), ?_⟩
      · rw [hc2, hc1, List.countP_cons]
        by_cases hcl : isCompLine l = true <;> simp [hcl] <;> omega
      · intro i hi hcomp
        match i with
        | 0 =>
          simp only [List.get_eq_getElem, List.getElem_cons_zero] at hcomp
          have hmem := hl1 hcomp
          constructor
          · simpa using hm2 _ hmem.1
          · simpa using hm2 _ hmem.2
        | Nat.succ i =>
          have hi2 : i < rest.length := by simpa [Nat.succ_lt_succ_iff] using hi
          have hcomp2 : isCompLine (rest.get ⟨i, hi2⟩) = true := by
            simpa using hcomp
          have := hl2 i hi2 hcomp2
          rw [hcount i]
          exact this

/-- C7: for every command sequence translated by one `CodeWriter` instance
(fresh counter 0), the final counter equals the number of comparison
commands — each comparison bumps it exactly once and nothing else touches
it — the `(TRUE_k)`/`(END_k)` label lines minted by the `i`-th comparison
(`k` = number of comparisons before `i`) really appear in the output, and no
two comparison commands emit an identical true-label or end-label name (nor
does any true-label collide with any end-label). -/
theorem comparison_labels_unique (lines : List Str) (fname : Str) (w : CodeWriter)
    (h : runWriter (CodeWriter.new fname) lines = RunRes.ok w) :
    w.label_counter = List.countP isCompLine lines ∧
    (∀ i (hi : i < lines.length), isCompLine (lines.get ⟨i, hi⟩) = true →
      (lit "(" ++ trueLabelAt lines i ++ lit ")") ∈ w.output ∧
      (lit "(" ++ endLabelAt lines i ++ lit ")") ∈ w.output) ∧
    (∀ i j (hi : i < lines.length) (hj : j < lines.length), i < j →
      isCompLine (lines.get ⟨i, hi⟩) = true →
      isCompLine (lines.get ⟨j, hj⟩) = true →
      trueLabelAt lines i ≠ trueLabelAt lines j ∧
      endLabelAt lines i ≠ endLabelAt lines j ∧
      trueLabelAt lines i ≠ endLabelAt lines j) := by
  obtain ⟨hf, hc, hm, hl⟩ := runWriter_ok lines (CodeWriter.new fname) w h
  refine ⟨by simpa [CodeWriter.new] using hc, ?_, ?_⟩
  · intro i hi hcomp
    have := hl i hi hcomp
    simpa [trueLabelAt, endLabelAt, CodeWriter.new] using this
  · intro i j hi hj hij hci hcj
    have hlt : List.countP isCompLine (lines.take i) <
        List.countP isCompLine (lines.take j) := by
      have hstep : List.countP isCompLine (lines.take (i + 1)) =
          List.countP isCompLine (lines.take i) + 1 := by
        rw [List.take_succ, List.getElem?_eq_getElem hi]
        simp only [Option.toList_some, List.countP_append, List.countP_cons]
        simp only [List.get_eq_getElem] at hci
        simp [hci]
      have hsub : List.Sublist (lines.take (i + 1)) (lines.take j) := by
        have hs := List.take_sublist (i + 1) (lines.take j)
        rwa [List.take_take, min_eq_left (by omega)] at hs
      have hle : List.countP isCompLine (lines.take (i + 1)) ≤
          List.countP isCompLine (lines.take j) := hsub.countP_le isCompLine
      omega
    have hne : List.countP isCompLine (lines.take i) ≠
        List.countP isCompLine (lines.take j) := by omega
    refine ⟨?_, ?_, ?_⟩
    · intro heq
      exact hne (natChars_injective (List.append_cancel_left heq))
    · intro heq
      exact hne (natChars_injective (List.append_cancel_left heq))
    · intro heq
      have hhead := congrArg List.head? heq
      simp [trueLabelAt, endLabelAt, lit] at hhead

/-- Witness for C7 on the two-command program `eq / eq`: translation
succeeds, the final counter is 2, and the two comparisons mint distinct
true-labels. -/
theorem comparison_labels_unique_witness :
    ∃ w, runWriter (CodeWriter.new (lit "t")) [lit "eq", lit "eq"] = RunRes.ok w ∧
      w.label_counter = List.countP isCompLine [lit "eq", lit "eq"] ∧
      trueLabelAt [lit "eq", lit "eq"] 0 ≠ trueLabelAt [lit "eq", lit "eq"] 1 := by
  refine ⟨_, rfl, ?_, ?_⟩
  · exact (comparison_labels_unique [lit "eq", lit "eq"] (lit "t") _ rfl).1
  · exact ((comparison_labels_unique [lit "eq", lit "eq"] (lit "t") _ rfl).2.2
      0 1 (by decide) (by decide) (by decide) (by decide) (by decide)).1

end N2T
